import Mathlib

/-!
Verification development for the efinance repository's core subsystems:
the numeric-coercion utility (`efinance/utils/__init__.py`, `to_numeric`),
the quote resolver and its local cache (`search_quote`,
`search_quote_locally`, `save_search_result`), and the bounded concurrent
fetch orchestrator (`efinance/common/getter.py`,
`get_quote_history_multi`).

Python dictionaries are modelled as association lists with Python's
assignment semantics (overwrite in place, append when absent); machine
time is a natural number of seconds; fallible Python code is modelled
with an explicit result type carrying either a value or a raised
exception message.
-/

set_option autoImplicit false

namespace Efinance

/-! ### Python dictionaries as association lists -/

/-- `d.get(k)` / `d[k]` on a Python dict modelled as an association list. -/
def dictGet {α : Type} : List (String × α) → String → Option α
  | [], _ => none
  | (k', v) :: rest, k => if k' = k then some v else dictGet rest k

/-- `d[k] = v` on a Python dict: overwrite the existing key in place,
otherwise append the new pair at the end (Python dicts preserve insertion
order and keep each key once). -/
def dictSet {α : Type} : List (String × α) → String → α → List (String × α)
  | [], k, v => [(k, v)]
  | (k', v') :: rest, k, v =>
    if k' = k then (k, v) :: rest else (k', v') :: dictSet rest k v

/-- `k in d` on a Python dict. -/
def containsKey {α : Type} (d : List (String × α)) (k : String) : Bool :=
  (dictGet d k).isSome

/-- `del d[k]` on a Python dict. -/
def delKey {α : Type} (d : List (String × α)) (k : String) : List (String × α) :=
  d.filter (fun p => p.1 ≠ k)

/-! ### The cell model for the numeric-coercion utility

`to_numeric` (efinance/utils/__init__.py, lines 20-73) post-processes a
pandas DataFrame or Series.  Cells are modelled as Python ints, floats or
strings.  A float is represented exactly as a scaled decimal
`m / 10 ^ e`; all floats manipulated by `convert` arise from decimal
parses or from `float(int)`, so this carrier is exact.  Strings are lists
of characters so that character-level predicates (`str.isalnum`, the
regex `\d`) are directly computable. -/

inductive Cell : Type where
  | intV (n : Int)
  | floatV (m : Int) (e : Nat)
  | strV (s : List Char)
deriving DecidableEq

/-- Fuel-driven digit rendering; `fuel` bounds the recursion depth and
`natDigits` supplies enough of it for any input. -/
def natDigitsAux : Nat → Nat → List Char
  | 0, _ => []
  | fuel + 1, n =>
    if n < 10 then [Nat.digitChar n]
    else natDigitsAux fuel (n / 10) ++ [Nat.digitChar (n % 10)]

/-- Decimal digit characters of a natural number, most significant first
(the digits of Python's `str` for a nonnegative int). -/
def natDigits (n : Nat) : List Char :=
  natDigitsAux (n + 1) n

/-- Python's `str` of an int: optional minus sign followed by digits. -/
def intDigits (n : Int) : List Char :=
  (if n < 0 then ['-'] else []) ++ natDigits n.natAbs

/-- The fractional digits of a float rendering: `e` digits left-padded
with zeros; an integral float renders with a single `0` after the point
(Python prints `-5.0` for `float(-5)`). -/
def fracDigits (e : Nat) (fp : Nat) : List Char :=
  if e = 0 then ['0']
  else List.replicate (e - (natDigits fp).length) '0' ++ natDigits fp

/-- Python's `str` of the float `m / 10 ^ e`: sign, integer digits, a
decimal point, fraction digits. -/
def floatStr (m : Int) (e : Nat) : List Char :=
  (if m < 0 then ['-'] else []) ++
    natDigits (m.natAbs / 10 ^ e) ++ '.' :: fracDigits e (m.natAbs % 10 ^ e)

/-- `str(o)` for a cell. -/
def strOfCell : Cell → List Char
  | .intV n => intDigits n
  | .floatV m e => floatStr m e
  | .strV s => s

/-- `re.findall("\d", str(o))` is nonempty, i.e. the string
representation contains a digit character. -/
def containsDigit (l : List Char) : Bool :=
  l.any Char.isDigit

/-- Python's `str.isalnum` restricted to the ASCII strings of the model:
nonempty and every character alphanumeric. -/
def pyIsAlnum (l : List Char) : Bool :=
  !l.isEmpty && l.all Char.isAlphanum

/-- Numeric value of a digit string (most significant first). -/
def digitsVal (l : List Char) : Nat :=
  l.foldl (fun a c => a * 10 + (c.toNat - 48)) 0

/-- Parse a nonempty all-digit string, else fail. -/
def natOfDigits (l : List Char) : Option Nat :=
  if !l.isEmpty && l.all Char.isDigit then some (digitsVal l) else none

/-- Python `int(s)` on a string: optional sign followed by digits
(raises, i.e. `none`, otherwise). -/
def pyIntParse (l : List Char) : Option Int :=
  match l with
  | [] => none
  | c :: r =>
    if c = '-' then (natOfDigits r).map (fun n : Nat => -(n : Int))
    else if c = '+' then (natOfDigits r).map (fun n : Nat => (n : Int))
    else (natOfDigits l).map (fun n : Nat => (n : Int))

/-- Python `int(o)`: identity on ints, truncation toward zero on floats,
string parse on strings. -/
def pyInt : Cell → Option Int
  | .intV n => some n
  | .floatV m e =>
    some (if m < 0 then -((m.natAbs / 10 ^ e : Nat) : Int) else ((m.natAbs / 10 ^ e : Nat) : Int))
  | .strV s => pyIntParse s

/-- Parse an unsigned decimal literal (`"12"`, `"12.34"`, `".5"`,
`"5."`) into mantissa and scale. -/
def pyUFloatParse (l : List Char) : Option (Nat × Nat) :=
  let ip := l.takeWhile (fun c => c ≠ '.')
  let rest := l.dropWhile (fun c => c ≠ '.')
  match rest with
  | [] => if !ip.isEmpty && ip.all Char.isDigit then some (digitsVal ip, 0) else none
  | _ :: fp =>
    if ip.all Char.isDigit && fp.all Char.isDigit &&
        !(ip.isEmpty && fp.isEmpty) && fp.all (fun c => c ≠ '.')
    then some (digitsVal ip * 10 ^ fp.length + digitsVal fp, fp.length)
    else none

/-- Python `float(s)` on a string: optional sign then a decimal literal. -/
def pyFloatParse (l : List Char) : Option (Int × Nat) :=
  match l with
  | [] => none
  | c :: r =>
    if c = '-' then (pyUFloatParse r).map (fun p : Nat × Nat => (-(p.1 : Int), p.2))
    else if c = '+' then (pyUFloatParse r).map (fun p : Nat × Nat => ((p.1 : Int), p.2))
    else (pyUFloatParse l).map (fun p : Nat × Nat => ((p.1 : Int), p.2))

/-- Python `float(o)`: identity on floats, exact widening on ints,
string parse on strings.  The result is a mantissa/scale pair. -/
def pyFloat : Cell → Option (Int × Nat)
  | .intV n => some (n, 0)
  | .floatV m e => some (m, e)
  | .strV s => pyFloatParse s

/-- The per-cell conversion `convert` nested inside `to_numeric`
(utils/__init__.py lines 61-71): return unchanged when the string
representation has no digit; otherwise `int` when alphanumeric else
`float`, and on a parse failure (the bare `except: pass`) return the
original value. -/
def convert (o : Cell) : Cell :=
  if containsDigit (strOfCell o) = false then o
  else if pyIsAlnum (strOfCell o) then
    match pyInt o with
    | some n => .intV n
    | none => o
  else
    match pyFloat o with
    | some p => .floatV p.1 p.2
    | none => o

/-- Transcription of the specification's per-cell algorithm (spec §4.2):
"if the string representation contains no digit characters, leave
unchanged. Otherwise attempt integer parse if the value is alphanumeric
with no separators, else attempt float parse; on any parse failure,
leave the original value unchanged."  Stated with `Option.getD` so that
the comparison with `convert` is a genuine equivalence of two texts. -/
def convertSpec (o : Cell) : Cell :=
  if containsDigit (strOfCell o) then
    if pyIsAlnum (strOfCell o) then ((pyInt o).map Cell.intV).getD o
    else ((pyFloat o).map (fun p => Cell.floatV p.1 p.2)).getD o
  else o

/-- The deny-list `ignore` of `to_numeric` (utils/__init__.py lines
35-44): identifier columns that are never coerced. -/
def ignoreColumns : List String :=
  ["股票代码", "基金代码", "代码", "市场类型", "市场编号", "债券代码", "行情ID", "正股代码"]

/-- A DataFrame, column-major: column name paired with its cells. -/
def DF : Type := List (String × List Cell)

instance : DecidableEq DF := by unfold DF; infer_instance

/-- A Series: index label paired with one cell. -/
def Series : Type := List (String × Cell)

instance : DecidableEq Series := by unfold Series; infer_instance

/-- The DataFrame branch of `to_numeric`'s wrapper `run` (lines 49-53):
apply `convert` to every cell of every column whose name is not in the
deny-list. -/
def to_numeric_df (df : DF) : DF :=
  df.map (fun col => if col.1 ∈ ignoreColumns then col else (col.1, col.2.map convert))

/-- The Series branch of `to_numeric`'s wrapper `run` (lines 54-58):
apply `convert` at every index not in the deny-list. -/
def to_numeric_series (s : Series) : Series :=
  s.map (fun kv => if kv.1 ∈ ignoreColumns then kv else (kv.1, convert kv.2))

/-! ### The quote resolver and its local cache

Embeds `search_quote`, `search_quote_locally` and `save_search_result`
(efinance/utils/__init__.py lines 140-273).  The network and the wall
clock are inputs: `now` is the value of `time.time()` in seconds and a
`NetResponse` describes what `session.get(...).json()` plus the key
accesses yield.  Raised exceptions are an explicit `PyResult`
constructor; file writes performed by `save_search_result` (the JSON
snapshot) have no observable effect on the in-memory objects and are not
modelled. -/

/-- Result of running a piece of Python code: a returned value or a
raised exception carrying a message. -/
inductive PyResult (α : Type) : Type where
  | ok (v : α)
  | exn (e : String)
deriving DecidableEq

/-- The `Quote` namedtuple (utils/__init__.py lines 77-95), in field
order. -/
structure Quote : Type where
  code : String
  name : String
  pinyin : String
  id : String
  jys : String
  classify : String
  market_type : String
  security_typeName : String
  security_type : String
  mkt_num : String
  type_us : String
  quote_id : String
  unified_code : String
  inner_code : String
deriving DecidableEq

/-- The `MarketType` enum (common/config.py lines 7-22).  In Python the
member `index` is an alias of `A_stock_index` (same value); here both
are constructors with the same `value`. -/
inductive MarketType : Type where
  | A_stock
  | A_stock_index
  | B_stock
  | index
  | STAR_market
  | CSI_free_float
  | NEEQ
  | BK
  | Hongkong
  | US_stock
  | London_stock
  | London_stock_IOB
  | universal_index
  | SIX_Swiss
deriving DecidableEq

/-- `MarketType.value`: the string value of each enum member. -/
def MarketType.value : MarketType → String
  | .A_stock => "AStock"
  | .A_stock_index => "Index"
  | .B_stock => "BStock"
  | .index => "Index"
  | .STAR_market => "23"
  | .CSI_free_float => "24"
  | .NEEQ => "NEEQ"
  | .BK => "BK"
  | .Hongkong => "HK"
  | .US_stock => "UsStock"
  | .London_stock => "LSE"
  | .London_stock_IOB => "LSEIOB"
  | .universal_index => "UniversalIndex"
  | .SIX_Swiss => "SIX"

/-- A value stored in a cache-entry dict: the flattened `Quote` fields
are strings and `last_time` is a numeric timestamp. -/
inductive EVal : Type where
  | s (v : String)
  | t (v : Nat)
deriving DecidableEq

/-- One cache entry: the dict `dict(quote._asdict())` plus `last_time`. -/
def Entry : Type := List (String × EVal)

instance : DecidableEq Entry := by unfold Entry; infer_instance

/-- The module-level cache `SEARCH_RESULT_DICT` (shared/__init__.py):
keyword to entry dict. -/
def Cache : Type := List (String × Entry)

instance : DecidableEq Cache := by unfold Cache; infer_instance

/-- The entry written by `save_search_result` for a quote resolved at
time `now`: `d = dict(quote._asdict()); d["last_time"] = now`
(utils/__init__.py lines 268-270). -/
def entryOfQuote (q : Quote) (now : Nat) : Entry :=
  [("code", .s q.code), ("name", .s q.name), ("pinyin", .s q.pinyin),
   ("id", .s q.id), ("jys", .s q.jys), ("classify", .s q.classify),
   ("market_type", .s q.market_type),
   ("security_typeName", .s q.security_typeName),
   ("security_type", .s q.security_type), ("mkt_num", .s q.mkt_num),
   ("type_us", .s q.type_us), ("quote_id", .s q.quote_id),
   ("unified_code", .s q.unified_code), ("inner_code", .s q.inner_code),
   ("last_time", .t now)]

/-- Read a string field of an entry dict. -/
def getS (e : Entry) (k : String) : Option String :=
  match dictGet e k with
  | some (.s v) => some v
  | _ => none

/-- `Quote(**_q)`: succeeds exactly when the dict supplies the 14
namedtuple fields and nothing else (a missing or extra keyword argument
raises `TypeError`). -/
def mkQuote (e : Entry) : Option Quote :=
  if e.length = 14 then
    (getS e "code").bind fun code =>
    (getS e "name").bind fun name =>
    (getS e "pinyin").bind fun pinyin =>
    (getS e "id").bind fun id =>
    (getS e "jys").bind fun jys =>
    (getS e "classify").bind fun classify =>
    (getS e "market_type").bind fun market_type =>
    (getS e "security_typeName").bind fun security_typeName =>
    (getS e "security_type").bind fun security_type =>
    (getS e "mkt_num").bind fun mkt_num =>
    (getS e "type_us").bind fun type_us =>
    (getS e "quote_id").bind fun quote_id =>
    (getS e "unified_code").bind fun unified_code =>
    (getS e "inner_code").bind fun inner_code =>
    some ⟨code, name, pinyin, id, jys, classify, market_type,
          security_typeName, security_type, mkt_num, type_us, quote_id,
          unified_code, inner_code⟩
  else none

/-- Python truthiness of `q.get("last_time")`: false when the key is
absent, when the value is the number `0`, or when it is the empty
string. -/
def lastTimeTruthy (q : Entry) : Bool :=
  match dictGet q "last_time" with
  | none => false
  | some (.t n) => n != 0
  | some (.s v) => v != ""

/-- `search_quote_locally` (utils/__init__.py lines 209-251), with the
cache threaded through explicitly.  The returned cache is the input
cache because the code copies the entry (`_q = q.copy()`, line 247)
before deleting `last_time` from it; the deletion therefore acts on the
copy only.  The unreachable-by-construction paths in which `last_time`
is not a number, or the entry does not rebuild into a `Quote`, raise
`TypeError` in Python and are `PyResult.exn` here. -/
def search_quote_locally (cache : Cache) (keyword : String)
    (market_type : Option MarketType) (now : Nat) :
    PyResult (Option Quote) × Cache :=
  match dictGet cache keyword with
  | none => (.ok none, cache)
  | some q =>
    if !lastTimeTruthy q then (.ok none, cache)
    else if (match market_type with
             | some m => dictGet q "classify" != some (.s m.value)
             | none => false) then (.ok none, cache)
    else
      match dictGet q "last_time" with
      | some (.t last_time) =>
        if now - last_time > 3600 * 24 * 3 then (.ok none, cache)
        else
          match mkQuote (delKey q "last_time") with
          | some quote => (.ok (some quote), cache)
          | none => (.exn "TypeError", cache)
      | _ => (.exn "TypeError", cache)

/-- `save_search_result` (utils/__init__.py lines 254-273): the loop
body runs for the first quote only (`break`), storing the flattened
quote with a fresh timestamp under the keyword; with an empty list the
dict is untouched.  The `json.dump` to the snapshot file is I/O with no
effect on the in-memory dict. -/
def save_search_result (cache : Cache) (keyword : String)
    (quotes : List Quote) (now : Nat) : Cache :=
  match quotes with
  | [] => cache
  | q :: _ => dictSet cache keyword (entryOfQuote q now)

/-- One candidate record of the upstream suggestion endpoint's
`QuotationCodeTable.Data` list: a JSON object with 14 values which, in
order, populate the 14 `Quote` fields (`Quote(*item.values())`, line
189); the filters access the keys `"Code"` and `"Classify"`. -/
structure Item : Type where
  Code : String
  Name : String
  PinYin : String
  ID : String
  JYS : String
  Classify : String
  MarketType : String
  SecurityTypeName : String
  SecurityType : String
  MktNum : String
  TypeUS : String
  QuoteID : String
  UnifiedCode : String
  InnerCode : String
deriving DecidableEq

/-- `Quote(*item.values())`: positional construction from the item's
values. -/
def quoteOfItem (it : Item) : Quote :=
  ⟨it.Code, it.Name, it.PinYin, it.ID, it.JYS, it.Classify, it.MarketType,
   it.SecurityTypeName, it.SecurityType, it.MktNum, it.TypeUS, it.QuoteID,
   it.UnifiedCode, it.InnerCode⟩

/-- What the network interaction of `search_quote` (lines 178-185)
yields: `malformed` when `.json()` raises `json.JSONDecodeError`,
`keyErr` when the JSON parses but `"QuotationCodeTable"` or `"Data"` is
missing (`KeyError`, not caught), and otherwise the `Data` value, which
is either JSON `null` or a list of items. -/
inductive NetResponse : Type where
  | malformed
  | keyErr
  | items (l : Option (List Item))
deriving DecidableEq

/-- The list comprehension of `search_quote` (lines 188-198): keep an
item when exact-symbol mode is off or its `Code` equals the keyword, and
when no market filter is supplied or its `Classify` equals the filter's
value; build `Quote`s from the survivors. -/
def filterQuotes (keyword : String) (market_type : Option MarketType)
    (quote_symbol_mode : Bool) (l : List Item) : List Quote :=
  (l.filter fun it =>
      (!quote_symbol_mode || keyword == it.Code) &&
      (match market_type with
       | none => true
       | some m => m.value == it.Classify)).map quoteOfItem

/-- Everything `search_quote` observably produces: the returned value or
raised exception, whether the search request was issued, and the cache
afterwards. -/
structure SQOutcome : Type where
  result : PyResult (Option (Sum Quote (List Quote)))
  networkCalled : Bool
  cache : Cache
deriving DecidableEq

/-- Shorthand for `search_quote` returning a single `Quote`. -/
def retOne (q : Quote) : PyResult (Option (Sum Quote (List Quote))) :=
  .ok (some (Sum.inl q))

/-- Shorthand for `search_quote` returning a list of quotes. -/
def retMany (qs : List Quote) : PyResult (Option (Sum Quote (List Quote))) :=
  .ok (some (Sum.inr qs))

/-- Shorthand for `search_quote` returning `None`. -/
def retNone : PyResult (Option (Sum Quote (List Quote))) :=
  .ok none

/-- The tail of `search_quote`'s online branch (lines 199-204), after
`save_search_result` produced the cache `cache'`: return the first
survivor or `None` in single-result mode, else the first `count`
survivors. -/
def afterSave (cache' : Cache) (count : Nat) (quotes : List Quote) :
    SQOutcome :=
  if count = 1 then
    match quotes with
    | q :: _ => ⟨retOne q, true, cache'⟩
    | [] => ⟨retNone, true, cache'⟩
  else ⟨retMany (quotes.take count), true, cache'⟩

/-- The online part of `search_quote` (lines 171-206), entered after the
local-cache block: issue the search request, handle the response, filter
the candidates, persist the first survivor, and return according to
`count`. -/
def searchOnline (cache : Cache) (keyword : String)
    (market_type : Option MarketType) (count : Nat)
    (quote_symbol_mode : Bool) (now : Nat) (resp : NetResponse) :
    SQOutcome :=
  match resp with
  | .malformed => ⟨retNone, true, cache⟩
  | .keyErr => ⟨.exn "KeyError", true, cache⟩
  | .items none => ⟨retNone, true, cache⟩
  | .items (some l) =>
    if l.isEmpty then ⟨retNone, true, cache⟩
    else
      afterSave
        (save_search_result cache keyword
          ((filterQuotes keyword market_type quote_symbol_mode l).take 1) now)
        count (filterQuotes keyword market_type quote_symbol_mode l)

/-- `search_quote` (utils/__init__.py lines 140-206).  When
`use_local` holds and `count = 1`, a truthy local result (a `Quote`
namedtuple is always truthy) is returned without touching the network;
otherwise the online search runs.  An exception raised by the local
lookup propagates. -/
def search_quote (cache : Cache) (keyword : String)
    (market_type : Option MarketType) (count : Nat) (use_local : Bool)
    (quote_symbol_mode : Bool) (now : Nat) (resp : NetResponse) :
    SQOutcome :=
  if use_local && count == 1 then
    match search_quote_locally cache keyword market_type now with
    | (.exn e, c') => ⟨.exn e, false, c'⟩
    | (.ok (some q), c') => ⟨retOne q, false, c'⟩
    | (.ok none, c') => searchOnline c' keyword market_type count quote_symbol_mode now resp
  else searchOnline cache keyword market_type count quote_symbol_mode now resp

/-- The quotes surviving filtering for a given response: empty unless
the response is a list of items. -/
def surviving (keyword : String) (market_type : Option MarketType)
    (quote_symbol_mode : Bool) : NetResponse → List Quote
  | .items (some l) => filterQuotes keyword market_type quote_symbol_mode l
  | _ => []

/-- Does a supplied market filter match a quote's classification
(`market_type.value == item["Classify"]` and the cached-entry variant)? -/
def mtMatches (market_type : Option MarketType) (q : Quote) : Bool :=
  match market_type with
  | none => true
  | some m => m.value == q.classify

/-! ### The bounded concurrent fetch orchestrator

Embeds `get_quote_history_multi` (efinance/common/getter.py lines
171-220).  The admission loop (lines 210-213) iterates the codes in
order; when the number of live tasks exceeds `MAX_CONNECTIONS` it sleeps
three seconds, and it then spawns the task unconditionally — sleeping
delays but never skips or reorders a spawn.  The number of live tasks at
each admission step is timing-dependent and is supplied as an oracle.
Each spawned task eventually performs `dfs[code] = _df`; the shared dict
is the fold of these writes in task-completion order, which is an
arbitrary interleaving, i.e. a permutation of the spawned codes.
`multitasking.wait_for_tasks()` (line 215) blocks until every write has
happened. -/

/-- The admission loop: walk the codes in order, recording a sleep
whenever the live-task oracle exceeds the ceiling at that step, and
spawn every code.  Returns the spawned codes in spawn order and the
number of sleeps taken. -/
def admitLoop (maxConn : Nat) (active : Nat → Nat) :
    List String → Nat → List String × Nat
  | [], _ => ([], 0)
  | c :: rest, i =>
    let slept := if active i > maxConn then 1 else 0
    let r := admitLoop maxConn active rest (i + 1)
    (c :: r.1, slept + r.2)

/-- The shared dict `dfs` after all tasks completed in the order
`completion`: each task performs `dfs[code] = fetch code`. -/
def runCompleted {α : Type} (fetch : String → α) (completion : List String) :
    List (String × α) :=
  completion.foldl (fun d c => dictSet d c (fetch c)) []

/-- Observable outcome of a batch fetch: the aggregated dict and the
number of admission sleeps (timing only). -/
structure MultiOutcome (α : Type) : Type where
  dfs : List (String × α)
  sleeps : Nat
deriving DecidableEq

/-- `get_quote_history_multi` for an always-succeeding single-symbol
fetch function: spawn one task per code under the admission throttle,
let them complete in the order `completion` (a permutation of the
spawned codes), and return the aggregated dict once all tasks are done. -/
def get_quote_history_multi {α : Type} (maxConn : Nat) (active : Nat → Nat)
    (codes : List String) (fetch : String → α) (completion : List String) :
    MultiOutcome α :=
  let admitted := admitLoop maxConn active codes 0
  ⟨runCompleted fetch completion, admitted.2⟩

/-! ### The per-task retry decorator

`@retry(tries=r, delay=1)` from the third-party retry package wraps each
task (common/getter.py line 192, fund/getter.py line 118): it makes up
to `r` attempts, sleeping one second between attempts, and re-raises the
exception of the last attempt when all fail.  The wrapped fetch is a
function of the attempt index so that a run failing on exactly its first
`k` invocations is expressible. -/

/-- Up to `tries` attempts starting at attempt index `i`; the last
attempt's exception propagates.  `tries = 0` cannot arise from the
decorator (its `tries` is at least 1 at every call site). -/
def retryGo {α : Type} (f : Nat → PyResult α) : Nat → Nat → PyResult α
  | 0, _ => .exn "no attempts"
  | 1, i => f i
  | n + 2, i =>
    match f i with
    | .ok v => .ok v
    | .exn _ => retryGo f (n + 1) (i + 1)

/-- Run a fallible call under `@retry(tries, delay=1)`. -/
def retryRun {α : Type} (tries : Nat) (f : Nat → PyResult α) : PyResult α :=
  retryGo f tries 0

/-- One orchestrator task body under retry (common/getter.py lines
191-207): on success store the table under the symbol key; when the
retries are exhausted the exception escapes into the task's thread and
no write to the shared dict happens, leaving the symbol's slot as it
was. -/
def runTaskRetry {α : Type} (dfs : List (String × α)) (code : String)
    (tries : Nat) (f : Nat → PyResult α) : List (String × α) :=
  match retryRun tries f with
  | .ok v => dictSet dfs code v
  | .exn _ => dfs

/-- Example quote used by concrete counterexamples: the instrument a
name-keyword resolves to; its ticker differs from the keyword. -/
def quoteMoutai : Quote :=
  ⟨"600519", "Kweichow Moutai", "gzmt", "", "", "AStock", "", "", "", "1",
   "", "1.600519", "", ""⟩

/-- A cache state produced by resolving the free-text keyword
`"MOUTAI"` at time 100: exactly what `save_search_result` writes. -/
def cacheMoutai : Cache := [("MOUTAI", entryOfQuote quoteMoutai 100)]

/-- A concrete upstream candidate whose ticker is the keyword
`"600519"`, used by concrete witnesses. -/
def item600519 : Item :=
  ⟨"600519", "Kweichow Moutai", "gzmt", "", "", "AStock", "", "", "", "1",
   "", "1.600519", "", ""⟩

/-! ## Lemmas: digit strings and the cell conversion -/

theorem digitChar_isDigit {d : Nat} (h : d < 10) :
    (Nat.digitChar d).isDigit = true := by
  interval_cases d <;> decide

theorem natDigitsAux_digits :
    ∀ (fuel n : Nat), ∀ c ∈ natDigitsAux fuel n, c.isDigit = true := by
  intro fuel
  induction fuel with
  | zero => intro n c hc; simp [natDigitsAux] at hc
  | succ m ih =>
    intro n c hc
    unfold natDigitsAux at hc
    split at hc
    · rcases List.mem_singleton.mp hc with rfl
      exact digitChar_isDigit (by assumption)
    · rcases List.mem_append.mp hc with h | h
      · exact ih _ c h
      · rcases List.mem_singleton.mp h with rfl
        exact digitChar_isDigit (Nat.mod_lt _ (by omega))

theorem natDigits_digits (n : Nat) : ∀ c ∈ natDigits n, c.isDigit = true :=
  natDigitsAux_digits (n + 1) n

theorem natDigits_ne_nil (n : Nat) : natDigits n ≠ [] := by
  unfold natDigits natDigitsAux
  split
  · simp
  · simp

theorem containsDigit_natDigits (n : Nat) :
    containsDigit (natDigits n) = true := by
  cases h : natDigits n with
  | nil => exact absurd h (natDigits_ne_nil n)
  | cons c l =>
    have hc : c.isDigit = true := natDigits_digits n c (by rw [h]; exact List.mem_cons_self _ _)
    simp [containsDigit, List.any_cons, hc]

theorem isDigit_isAlphanum {c : Char} (h : c.isDigit = true) :
    c.isAlphanum = true := by
  simp [Char.isAlphanum, h]

theorem pyIsAlnum_natDigits (n : Nat) : pyIsAlnum (natDigits n) = true := by
  have hne : (natDigits n).isEmpty = false := by
    cases h : natDigits n with
    | nil => exact absurd h (natDigits_ne_nil n)
    | cons c l => rfl
  have hall : (natDigits n).all Char.isAlphanum = true :=
    List.all_eq_true.mpr fun c hc => isDigit_isAlphanum (natDigits_digits n c hc)
  simp [pyIsAlnum, hne, hall]

theorem intDigits_natCast (m : Nat) : intDigits (m : Int) = natDigits m := by
  unfold intDigits
  rw [if_neg (Int.not_lt.mpr (Int.natCast_nonneg m))]
  simp

theorem intDigits_neg {n : Int} (h : n < 0) :
    intDigits n = '-' :: natDigits n.natAbs := by
  unfold intDigits
  rw [if_pos h]
  rfl

theorem containsDigit_append (l₁ l₂ : List Char) :
    containsDigit (l₁ ++ l₂) = (containsDigit l₁ || containsDigit l₂) := by
  simp [containsDigit]

theorem containsDigit_floatStr (m : Int) (e : Nat) :
    containsDigit (floatStr m e) = true := by
  unfold floatStr
  rw [containsDigit_append, containsDigit_append, containsDigit_natDigits]
  simp

theorem dot_mem_floatStr (m : Int) (e : Nat) : '.' ∈ floatStr m e := by
  unfold floatStr
  exact List.mem_append_right _ (List.mem_cons_self _ _)

theorem pyIsAlnum_of_mem_not_alnum {l : List Char} {c : Char}
    (hm : c ∈ l) (hc : c.isAlphanum = false) : pyIsAlnum l = false := by
  have : l.all Char.isAlphanum = false := by
    cases h : l.all Char.isAlphanum with
    | false => rfl
    | true =>
      have := List.all_eq_true.mp h c hm
      rw [hc] at this
      cases this
  simp [pyIsAlnum, this]

theorem pyIsAlnum_floatStr (m : Int) (e : Nat) :
    pyIsAlnum (floatStr m e) = false :=
  pyIsAlnum_of_mem_not_alnum (dot_mem_floatStr m e) (by decide)

theorem convert_floatV (m : Int) (e : Nat) :
    convert (.floatV m e) = .floatV m e := by
  unfold convert
  simp [strOfCell, containsDigit_floatStr, pyIsAlnum_floatStr, pyFloat]

theorem convert_intV_natCast (m : Nat) :
    convert (.intV (m : Int)) = .intV (m : Int) := by
  unfold convert
  simp [strOfCell, intDigits_natCast, containsDigit_natDigits,
        pyIsAlnum_natDigits, pyInt]

theorem convert_intV_neg {n : Int} (hn : n < 0) :
    convert (.intV n) = .floatV n 0 := by
  have hs : strOfCell (.intV n) = '-' :: natDigits n.natAbs := intDigits_neg hn
  have hrest := containsDigit_natDigits n.natAbs
  simp only [containsDigit] at hrest
  have hd : containsDigit (strOfCell (.intV n)) = true := by
    rw [hs]
    simp [containsDigit, List.any_cons, hrest]
  have ha : pyIsAlnum (strOfCell (.intV n)) = false := by
    rw [hs]
    exact pyIsAlnum_of_mem_not_alnum (List.mem_cons_self _ _) (by decide)
  unfold convert
  rw [hd, ha]
  simp [pyFloat]

theorem pyIntParse_of_alnum {s : List Char} (h : pyIsAlnum s = true) :
    pyIntParse s = (natOfDigits s).map (fun n : Nat => (n : Int)) := by
  cases s with
  | nil => simp [pyIsAlnum] at h
  | cons c r =>
    have hall : (c :: r).all Char.isAlphanum = true := by
      cases hall : (c :: r).all Char.isAlphanum with
      | true => rfl
      | false => simp [pyIsAlnum, hall] at h
    have hc : c.isAlphanum = true :=
      List.all_eq_true.mp hall c (List.mem_cons_self _ _)
    have h1 : c ≠ '-' := by rintro rfl; cases hc
    have h2 : c ≠ '+' := by rintro rfl; cases hc
    simp only [pyIntParse]
    rw [if_neg h1, if_neg h2]

theorem convert_idem (o : Cell) : convert (convert o) = convert o := by
  cases o with
  | intV n =>
    rcases lt_or_le n 0 with hn | hn
    · rw [convert_intV_neg hn, convert_floatV]
    · obtain ⟨m, rfl⟩ := Int.eq_ofNat_of_zero_le hn
      rw [convert_intV_natCast, convert_intV_natCast]
  | floatV m e => rw [convert_floatV, convert_floatV]
  | strV s =>
    by_cases hd : containsDigit s = true
    · by_cases ha : pyIsAlnum s = true
      · have hp : pyInt (.strV s) = (natOfDigits s).map (fun n : Nat => (n : Int)) :=
          pyIntParse_of_alnum ha
        cases hfind : natOfDigits s with
        | none =>
          have hcs : convert (.strV s) = .strV s := by
            unfold convert
            rw [show strOfCell (.strV s) = s from rfl, hd, ha, hp, hfind]
            simp
          rw [hcs, hcs]
        | some n =>
          have hcs : convert (.strV s) = .intV (n : Int) := by
            unfold convert
            rw [show strOfCell (.strV s) = s from rfl, hd, ha, hp, hfind]
            simp
          rw [hcs, convert_intV_natCast]
      · have ha' : pyIsAlnum s = false := by
          cases h : pyIsAlnum s with
          | false => rfl
          | true => exact absurd h ha
        cases hf : pyFloatParse s with
        | none =>
          have hcs : convert (.strV s) = .strV s := by
            unfold convert
            rw [show strOfCell (.strV s) = s from rfl, hd, ha']
            simp [pyFloat, hf]
          rw [hcs, hcs]
        | some p =>
          have hcs : convert (.strV s) = .floatV p.1 p.2 := by
            unfold convert
            rw [show strOfCell (.strV s) = s from rfl, hd, ha']
            simp [pyFloat, hf]
          rw [hcs, convert_floatV]
    · have hd' : containsDigit s = false := by
        cases h : containsDigit s with
        | false => rfl
        | true => exact absurd h hd
      have hcs : convert (.strV s) = .strV s := by
        unfold convert
        rw [show strOfCell (.strV s) = s from rfl, hd']
        simp
      rw [hcs, hcs]

/-! ## Lemmas: the resolver and its cache -/

theorem dictGet_entryOfQuote_lastTime (q : Quote) (t : Nat) :
    dictGet (entryOfQuote q t) "last_time" = some (.t t) := rfl

theorem dictGet_entryOfQuote_classify (q : Quote) (t : Nat) :
    dictGet (entryOfQuote q t) "classify" = some (.s q.classify) := rfl

theorem mkQuote_entryOfQuote (q : Quote) (t : Nat) :
    mkQuote (delKey (entryOfQuote q t) "last_time") = some q := rfl

theorem lastTimeTruthy_entryOfQuote (q : Quote) (t : Nat) :
    lastTimeTruthy (entryOfQuote q t) = (t != 0) := by
  unfold lastTimeTruthy
  rw [dictGet_entryOfQuote_lastTime]

theorem search_quote_locally_snd (cache : Cache) (kw : String)
    (mt : Option MarketType) (now : Nat) :
    (search_quote_locally cache kw mt now).2 = cache := by
  unfold search_quote_locally
  cases dictGet cache kw with
  | none => rfl
  | some q =>
    repeat' split
    all_goals rfl

theorem afterSave_networkCalled (c' : Cache) (cnt : Nat) (qs : List Quote) :
    (afterSave c' cnt qs).networkCalled = true := by
  unfold afterSave
  split
  · split <;> rfl
  · rfl

theorem afterSave_cache (c' : Cache) (cnt : Nat) (qs : List Quote) :
    (afterSave c' cnt qs).cache = c' := by
  unfold afterSave
  split
  · split <;> rfl
  · rfl

theorem searchOnline_networkCalled (cache : Cache) (kw : String)
    (mt : Option MarketType) (cnt : Nat) (sm : Bool) (now : Nat)
    (resp : NetResponse) :
    (searchOnline cache kw mt cnt sm now resp).networkCalled = true := by
  cases resp with
  | malformed => rfl
  | keyErr => rfl
  | items l =>
    cases l with
    | none => rfl
    | some xs =>
      simp only [searchOnline]
      split
      · rfl
      · exact afterSave_networkCalled _ _ _

theorem searchOnline_cache (cache : Cache) (kw : String)
    (mt : Option MarketType) (cnt : Nat) (sm : Bool) (now : Nat)
    (resp : NetResponse) :
    ((searchOnline cache kw mt cnt sm now resp).cache = cache ∧
      surviving kw mt sm resp = []) ∨
    (∃ q qs, surviving kw mt sm resp = q :: qs ∧
      (searchOnline cache kw mt cnt sm now resp).cache =
        dictSet cache kw (entryOfQuote q now)) := by
  cases resp with
  | malformed => exact Or.inl ⟨rfl, rfl⟩
  | keyErr => exact Or.inl ⟨rfl, rfl⟩
  | items l =>
    cases l with
    | none => exact Or.inl ⟨rfl, rfl⟩
    | some xs =>
      simp only [searchOnline, surviving]
      by_cases hemp : xs.isEmpty = true
      · have hxs : xs = [] := List.isEmpty_iff.mp hemp
        subst hxs
        exact Or.inl ⟨by simp, by simp [filterQuotes]⟩
      · rw [if_neg (by simp [hemp])]
        cases hq : filterQuotes kw mt sm xs with
        | nil =>
          exact Or.inl ⟨by rw [afterSave_cache]; rfl, rfl⟩
        | cons q qs =>
          exact Or.inr ⟨q, qs, rfl, by rw [afterSave_cache]; rfl⟩

theorem search_quote_locally_entry (cache : Cache) (kw : String) (q : Quote)
    (T Δ : Nat) (mt : Option MarketType)
    (hentry : dictGet cache kw = some (entryOfQuote q T)) (hT : 0 < T) :
    search_quote_locally cache kw mt (T + Δ) =
      (if Δ ≤ 259200 ∧ mtMatches mt q = true then ((.ok (some q) : PyResult (Option Quote)), cache)
       else (.ok none, cache)) := by
  have htr : lastTimeTruthy (entryOfQuote q T) = true := by
    rw [lastTimeTruthy_entryOfQuote]
    simp [bne_iff_ne]
    omega
  unfold search_quote_locally
  rw [hentry]
  cases mt with
  | none =>
    simp only [htr, Bool.not_true, dictGet_entryOfQuote_lastTime,
               dictGet_entryOfQuote_classify, mkQuote_entryOfQuote,
               Nat.add_sub_cancel_left, mtMatches]
    by_cases hΔ : Δ ≤ 259200
    · have h1 : ¬ (Δ > 3600 * 24 * 3) := by omega
      simp [h1, hΔ]
    · have h1 : Δ > 3600 * 24 * 3 := by omega
      simp [h1, hΔ]
  | some m =>
    by_cases hm : (m.value == q.classify) = true
    · have hm2 : q.classify = m.value := (beq_iff_eq.mp hm).symm
      have hb : (some (EVal.s q.classify) != some (EVal.s m.value)) = false := by
        simp [bne, hm2]
      simp only [htr, Bool.not_true, dictGet_entryOfQuote_lastTime,
                 dictGet_entryOfQuote_classify, mkQuote_entryOfQuote,
                 Nat.add_sub_cancel_left, mtMatches, hb]
      by_cases hΔ : Δ ≤ 259200
      · have h1 : ¬ (Δ > 3600 * 24 * 3) := by omega
        simp [h1, hΔ, hm]
      · have h1 : Δ > 3600 * 24 * 3 := by omega
        simp [h1, hΔ]
    · have hm2 : q.classify ≠ m.value := fun he => hm (beq_iff_eq.mpr he.symm)
      have hb : (some (EVal.s q.classify) != some (EVal.s m.value)) = true := by
        simp [bne, hm2]
      simp only [htr, Bool.not_true, dictGet_entryOfQuote_lastTime,
                 dictGet_entryOfQuote_classify, mkQuote_entryOfQuote,
                 mtMatches, hb]
      simp [hm]

/-! ## Lemmas: dictionaries, the orchestrator fold and retry -/

theorem dictGet_dictSet_self {α : Type} (d : List (String × α)) (k : String) (v : α) :
    dictGet (dictSet d k v) k = some v := by
  induction d with
  | nil => simp [dictGet, dictSet]
  | cons p rest ih =>
    obtain ⟨k', v'⟩ := p
    by_cases h : k' = k
    · simp [dictSet, dictGet, h]
    · simp [dictSet, dictGet, h, ih]

theorem dictGet_dictSet_ne {α : Type} (d : List (String × α)) {k k' : String}
    (v : α) (h : k' ≠ k) : dictGet (dictSet d k v) k' = dictGet d k' := by
  have h' : k ≠ k' := fun he => h he.symm
  induction d with
  | nil => simp [dictGet, dictSet, h']
  | cons p rest ih =>
    obtain ⟨k₀, v₀⟩ := p
    by_cases h0 : k₀ = k
    · subst h0
      simp [dictSet, dictGet, h']
    · simp [dictSet, dictGet, h0, ih]

theorem containsKey_dictSet_ne {α : Type} (d : List (String × α)) {k k' : String}
    (v : α) (h : k' ≠ k) : containsKey (dictSet d k v) k' = containsKey d k' := by
  unfold containsKey
  rw [dictGet_dictSet_ne d v h]

theorem length_dictSet_of_not_key {α : Type} (d : List (String × α))
    {k : String} (v : α) (h : containsKey d k = false) :
    (dictSet d k v).length = d.length + 1 := by
  induction d with
  | nil => rfl
  | cons p rest ih =>
    obtain ⟨k₀, v₀⟩ := p
    by_cases h0 : k₀ = k
    · simp [containsKey, dictGet, h0] at h
    · have hrest : containsKey rest k = false := by
        simpa [containsKey, dictGet, h0] using h
      simp [dictSet, h0, ih hrest]

theorem dictGet_foldl_write {α : Type} (fetch : String → α) :
    ∀ (σ : List String) (d : List (String × α)) (c : String),
      dictGet (σ.foldl (fun d c => dictSet d c (fetch c)) d) c =
        if c ∈ σ then some (fetch c) else dictGet d c := by
  intro σ
  induction σ with
  | nil => simp
  | cons a rest ih =>
    intro d c
    simp only [List.foldl_cons]
    rw [ih]
    by_cases hc : c ∈ rest
    · simp [hc]
    · by_cases hca : c = a
      · subst hca
        simp [hc, dictGet_dictSet_self]
      · simp [hc, hca, dictGet_dictSet_ne d (fetch a) hca]

theorem length_foldl_write {α : Type} (fetch : String → α) :
    ∀ (σ : List String) (d : List (String × α)), σ.Nodup →
      (∀ c ∈ σ, containsKey d c = false) →
      (σ.foldl (fun d c => dictSet d c (fetch c)) d).length =
        d.length + σ.length := by
  intro σ
  induction σ with
  | nil => intro d _ _; simp
  | cons a rest ih =>
    intro d hnd hkeys
    simp only [List.foldl_cons]
    have ha : containsKey d a = false := hkeys a (List.mem_cons_self _ _)
    have hrest : ∀ c ∈ rest, containsKey (dictSet d a (fetch a)) c = false := by
      intro c hc
      have hne : c ≠ a := fun he => (List.nodup_cons.mp hnd).1 (he ▸ hc)
      rw [containsKey_dictSet_ne d (fetch a) hne]
      exact hkeys c (List.mem_cons_of_mem _ hc)
    rw [ih _ (List.nodup_cons.mp hnd).2 hrest,
        length_dictSet_of_not_key d (fetch a) ha]
    simp [Nat.add_assoc, Nat.add_comm 1]

theorem dictGet_runCompleted {α : Type} (fetch : String → α)
    (σ : List String) (c : String) :
    dictGet (runCompleted fetch σ) c =
      if c ∈ σ then some (fetch c) else none := by
  unfold runCompleted
  rw [dictGet_foldl_write fetch σ [] c]
  rfl

theorem length_runCompleted {α : Type} (fetch : String → α)
    (σ : List String) (h : σ.Nodup) :
    (runCompleted fetch σ).length = σ.length := by
  unfold runCompleted
  rw [length_foldl_write fetch σ [] h (fun c _ => rfl)]
  simp

theorem admitLoop_fst (maxConn : Nat) (active : Nat → Nat) :
    ∀ (codes : List String) (i : Nat),
      (admitLoop maxConn active codes i).1 = codes := by
  intro codes
  induction codes with
  | nil => intro i; rfl
  | cons c rest ih => intro i; simp [admitLoop, ih]

theorem retryGo_firstK {α : Type} (k : Nat) (res : α) (emsg : String) :
    ∀ (n i : Nat),
      retryGo (fun j => if j < k then .exn emsg else .ok res) (n + 1) i =
        if k < i + (n + 1) then .ok res else .exn emsg := by
  intro n
  induction n with
  | zero =>
    intro i
    simp only [retryGo]
    by_cases h : i < k
    · rw [if_pos h, if_neg (by omega)]
    · rw [if_neg h, if_pos (by omega)]
  | succ m ih =>
    intro i
    show retryGo _ (m + 2) i = _
    simp only [retryGo]
    by_cases h : i < k
    · rw [if_pos h]
      simp only []
      rw [ih (i + 1)]
      by_cases h2 : k < i + 1 + (m + 1)
      · rw [if_pos h2, if_pos (by omega)]
      · rw [if_neg h2, if_neg (by omega)]
    · rw [if_neg h]
      simp only []
      rw [if_pos (by omega)]

/-! ## Lemmas: the numeric-coercion wrapper -/

theorem to_numeric_df_idem (df : DF) :
    to_numeric_df (to_numeric_df df) = to_numeric_df df := by
  unfold to_numeric_df
  rw [List.map_map]
  apply List.map_congr_left
  intro col _
  by_cases hc : col.1 ∈ ignoreColumns
  · simp [hc]
  · simp only [Function.comp_apply, if_neg hc]
    rw [List.map_map]
    have hcc : convert ∘ convert = convert := funext convert_idem
    rw [hcc]

theorem to_numeric_series_idem (s : Series) :
    to_numeric_series (to_numeric_series s) = to_numeric_series s := by
  unfold to_numeric_series
  rw [List.map_map]
  apply List.map_congr_left
  intro kv _
  by_cases hc : kv.1 ∈ ignoreColumns
  · simp [hc]
  · simp only [Function.comp_apply, if_neg hc]
    rw [convert_idem]

theorem dictGet_to_numeric_df (df : DF) (name : String)
    (h : name ∈ ignoreColumns) :
    dictGet (to_numeric_df df) name = dictGet df name := by
  induction df with
  | nil => rfl
  | cons hd tl ih =>
    obtain ⟨k, cells⟩ := hd
    simp only [to_numeric_df, List.map_cons]
    by_cases hig : k ∈ ignoreColumns
    · rw [if_pos hig]
      by_cases hk : k = name
      · simp [dictGet, hk]
      · simp only [dictGet, if_neg hk]
        simpa [to_numeric_df] using ih
    · rw [if_neg hig]
      by_cases hk : k = name
      · exact absurd (hk ▸ h) hig
      · simp only [dictGet, if_neg hk]
        simpa [to_numeric_df] using ih

theorem dictGet_to_numeric_series (s : Series) (name : String)
    (h : name ∈ ignoreColumns) :
    dictGet (to_numeric_series s) name = dictGet s name := by
  induction s with
  | nil => rfl
  | cons hd tl ih =>
    obtain ⟨k, cell⟩ := hd
    simp only [to_numeric_series, List.map_cons]
    by_cases hig : k ∈ ignoreColumns
    · rw [if_pos hig]
      by_cases hk : k = name
      · simp [dictGet, hk]
      · simp only [dictGet, if_neg hk]
        simpa [to_numeric_series] using ih
    · rw [if_neg hig]
      by_cases hk : k = name
      · exact absurd (hk ▸ h) hig
      · simp only [dictGet, if_neg hk]
        simpa [to_numeric_series] using ih

/-! ## Lemmas: survivors of the online filter -/

theorem mem_filterQuotes_code (kw : String) (mt : Option MarketType)
    (l : List Item) :
    ∀ p ∈ filterQuotes kw mt true l, p.code = kw := by
  intro p hp
  unfold filterQuotes at hp
  rcases List.mem_map.mp hp with ⟨it, hit, rfl⟩
  have hf := (List.mem_filter.mp hit).2
  have hcode : (kw == it.Code) = true := by
    cases h : (kw == it.Code) with
    | true => rfl
    | false => simp [h] at hf
  have : kw = it.Code := beq_iff_eq.mp hcode
  simp [quoteOfItem, this]

theorem searchOnline_result_mem (cache : Cache) (kw : String)
    (mt : Option MarketType) (cnt : Nat) (sm : Bool) (now : Nat)
    (resp : NetResponse) :
    (∀ q, (searchOnline cache kw mt cnt sm now resp).result = retOne q →
      q ∈ surviving kw mt sm resp) ∧
    (∀ qs, (searchOnline cache kw mt cnt sm now resp).result = retMany qs →
      ∀ p ∈ qs, p ∈ surviving kw mt sm resp) := by
  cases resp with
  | malformed =>
    exact ⟨fun q h => by simp [searchOnline, retNone, retOne] at h,
           fun qs h => by simp [searchOnline, retNone, retMany] at h⟩
  | keyErr =>
    exact ⟨fun q h => by simp [searchOnline, retOne] at h,
           fun qs h => by simp [searchOnline, retMany] at h⟩
  | items l =>
    cases l with
    | none =>
      exact ⟨fun q h => by simp [searchOnline, retNone, retOne] at h,
             fun qs h => by simp [searchOnline, retNone, retMany] at h⟩
    | some xs =>
      by_cases hemp : xs.isEmpty = true
      · constructor
        · intro q h
          simp [searchOnline, hemp, retNone, retOne] at h
        · intro qs h
          simp [searchOnline, hemp, retNone, retMany] at h
      · have hon : searchOnline cache kw mt cnt sm now (.items (some xs)) =
            afterSave
              (save_search_result cache kw
                ((filterQuotes kw mt sm xs).take 1) now) cnt
              (filterQuotes kw mt sm xs) := by
          simp [searchOnline, hemp]
        have hsurv : surviving kw mt sm (.items (some xs)) =
            filterQuotes kw mt sm xs := rfl
        rw [hon, hsurv]
        constructor
        · intro q h
          unfold afterSave at h
          split at h
          · split at h
            · rename_i q0 tail heq
              have hq : q0 = q := by simpa [retOne] using h
              subst hq
              rw [heq]
              exact List.mem_cons_self _ _
            · simp [retNone, retOne] at h
          · simp [retMany, retOne] at h
        · intro qs h
          unfold afterSave at h
          split at h
          · split at h
            · simp [retOne, retMany] at h
            · simp [retNone, retMany] at h
          · simp [retMany] at h
            subst h
            intro p hp
            exact List.take_subset _ _ hp

/-! ## Lemmas: relating `search_quote` to its online branch -/

theorem mem_surviving_code (kw : String) (mt : Option MarketType)
    (resp : NetResponse) : ∀ p ∈ surviving kw mt true resp, p.code = kw := by
  cases resp with
  | malformed => intro p hp; simp [surviving] at hp
  | keyErr => intro p hp; simp [surviving] at hp
  | items l =>
    cases l with
    | none => intro p hp; simp [surviving] at hp
    | some xs => exact mem_filterQuotes_code kw mt xs

theorem search_quote_online_or_local (cache : Cache) (kw : String)
    (mt : Option MarketType) (cnt : Nat) (ul sm : Bool) (now : Nat)
    (resp : NetResponse) :
    search_quote cache kw mt cnt ul sm now resp =
      searchOnline cache kw mt cnt sm now resp ∨
    (search_quote cache kw mt cnt ul sm now resp).networkCalled = false := by
  unfold search_quote
  by_cases hc : (ul && cnt == 1) = true
  · rw [if_pos hc]
    have hsnd := search_quote_locally_snd cache kw mt now
    rcases hl : search_quote_locally cache kw mt now with ⟨res, c'⟩
    rw [hl] at hsnd
    simp only at hsnd
    subst c'
    cases res with
    | exn e => exact Or.inr rfl
    | ok o =>
      cases o with
      | some q => exact Or.inr rfl
      | none => exact Or.inl rfl
  · rw [if_neg hc]
    exact Or.inl rfl

/-! ## The claims -/

/-- Claim C1: for a keyword resolved at time `T` (the cache holds the
entry `save_search_result` wrote, with timestamp `T > 0`), a
single-result `search_quote` with `use_local` at time `T + Δ` serves the
cached `Quote` without issuing the search request exactly when
`Δ ≤ 259200` seconds and any supplied market-type filter equals the
cached classification; in every other case the local lookup yields
`None` and the online request is issued. -/
theorem claim_C1 (cache : Cache) (kw : String) (q : Quote) (T Δ : Nat)
    (mt : Option MarketType) (sm : Bool) (resp : NetResponse)
    (hentry : dictGet cache kw = some (entryOfQuote q T)) (hT : 0 < T) :
    ((search_quote cache kw mt 1 true sm (T + Δ) resp).networkCalled = false
      ↔ (Δ ≤ 259200 ∧ mtMatches mt q = true)) ∧
    ((search_quote cache kw mt 1 true sm (T + Δ) resp).networkCalled = false →
      (search_quote cache kw mt 1 true sm (T + Δ) resp).result = retOne q ∧
      (search_quote cache kw mt 1 true sm (T + Δ) resp).cache = cache) ∧
    ((search_quote cache kw mt 1 true sm (T + Δ) resp).networkCalled = true →
      (search_quote_locally cache kw mt (T + Δ)).1 = .ok none) := by
  have hloc := search_quote_locally_entry cache kw q T Δ mt hentry hT
  by_cases hcond : Δ ≤ 259200 ∧ mtMatches mt q = true
  · rw [if_pos hcond] at hloc
    refine ⟨?_, ?_, ?_⟩ <;> simp [search_quote, hloc, hcond]
  · rw [if_neg hcond] at hloc
    have hnet := searchOnline_networkCalled cache kw mt 1 sm (T + Δ) resp
    refine ⟨?_, ?_, ?_⟩ <;> simp [search_quote, hloc, hnet, hcond]

/-- Witness for C1 at a concrete fresh cache entry (`Δ = 0`, no
filter): the lookup is served locally. -/
theorem claim_C1_witness :
    (search_quote cacheMoutai "MOUTAI" none 1 true false (100 + 0)
      (.items none)).networkCalled = false :=
  (claim_C1 cacheMoutai "MOUTAI" quoteMoutai 100 0 none false (.items none)
    (by decide) (by decide)).1.mpr ⟨by decide, by decide⟩

/-- Claim C2: for distinct codes and a total fetch function, the
orchestrator spawns every code, and the final dict has exactly one entry
per input code with the fetched table, independently of the concurrency
ceiling, the live-task oracle and the completion order. -/
theorem claim_C2 (codes : List String) (fetch : String → DF) (mc₁ mc₂ : Nat)
    (a₁ a₂ : Nat → Nat) (σ₁ σ₂ : List String) (hnd : codes.Nodup)
    (h₁ : List.Perm σ₁ codes) (h₂ : List.Perm σ₂ codes) :
    (admitLoop mc₁ a₁ codes 0).1 = codes ∧
    (get_quote_history_multi mc₁ a₁ codes fetch σ₁).dfs.length = codes.length ∧
    (∀ c ∈ codes,
      dictGet (get_quote_history_multi mc₁ a₁ codes fetch σ₁).dfs c =
        some (fetch c)) ∧
    (∀ k, dictGet (get_quote_history_multi mc₁ a₁ codes fetch σ₁).dfs k =
      dictGet (get_quote_history_multi mc₂ a₂ codes fetch σ₂).dfs k) := by
  have hd1 : (get_quote_history_multi mc₁ a₁ codes fetch σ₁).dfs =
      runCompleted fetch σ₁ := rfl
  have hd2 : (get_quote_history_multi mc₂ a₂ codes fetch σ₂).dfs =
      runCompleted fetch σ₂ := rfl
  refine ⟨admitLoop_fst mc₁ a₁ codes 0, ?_, ?_, ?_⟩
  · rw [hd1, length_runCompleted fetch σ₁ (h₁.nodup_iff.mpr hnd)]
    exact h₁.length_eq
  · intro c hc
    rw [hd1, dictGet_runCompleted, if_pos (h₁.mem_iff.mpr hc)]
  · intro k
    rw [hd1, hd2, dictGet_runCompleted, dictGet_runCompleted]
    by_cases hk : k ∈ codes
    · rw [if_pos (h₁.mem_iff.mpr hk), if_pos (h₂.mem_iff.mpr hk)]
    · rw [if_neg (fun hm => hk (h₁.mem_iff.mp hm)),
          if_neg (fun hm => hk (h₂.mem_iff.mp hm))]

/-- Witness for C2: two codes, ceiling 1, a reversed completion order. -/
theorem claim_C2_witness :
    dictGet (get_quote_history_multi 1 (fun _ => 0) ["a", "b"]
      (fun _ => ([] : DF)) ["b", "a"]).dfs "a" = some [] :=
  (claim_C2 ["a", "b"] (fun _ => ([] : DF)) 1 5 (fun _ => 0) (fun _ => 0)
    ["b", "a"] ["a", "b"] (by decide) (by decide) (by decide)).2.2.1 "a"
    (by decide)

/-- Claim C3: under `@retry(tries = r)` a fetch failing on exactly its
first `k` invocations succeeds, and its table is stored under the
symbol key, precisely when `k < r`; with `k ≥ r` the last exception
propagates out of the task and no entry is stored for the symbol. -/
theorem claim_C3 (r k : Nat) (res : DF) (code : String) (hr : 1 ≤ r) :
    (retryRun r (fun i => if i < k then .exn "HTTPError" else .ok res) =
        .ok res ↔ k < r) ∧
    (k < r → dictGet (runTaskRetry [] code r
        (fun i => if i < k then .exn "HTTPError" else .ok res)) code =
        some res) ∧
    (r ≤ k → retryRun r (fun i => if i < k then .exn "HTTPError" else .ok res) =
        .exn "HTTPError" ∧
      runTaskRetry [] code r
        (fun i => if i < k then .exn "HTTPError" else .ok res) = []) := by
  cases r with
  | zero => exact absurd hr (by omega)
  | succ n =>
    have h := retryGo_firstK k res "HTTPError" n 0
    rw [Nat.zero_add] at h
    have hrun : retryRun (n + 1)
        (fun i => if i < k then .exn "HTTPError" else .ok res) =
        if k < n + 1 then .ok res else .exn "HTTPError" := h
    refine ⟨?_, ?_, ?_⟩
    · by_cases hk : k < n + 1
      · simp [hrun, hk]
      · simp [hrun, hk]
    · intro hk
      unfold runTaskRetry
      rw [hrun, if_pos hk]
      exact dictGet_dictSet_self [] code res
    · intro hk
      have hk' : ¬ (k < n + 1) := by omega
      constructor
      · rw [hrun, if_neg hk']
      · unfold runTaskRetry
        rw [hrun, if_neg hk']

/-- Witness for C3: the default `tries = 3` with one initial failure
succeeds. -/
theorem claim_C3_witness :
    retryRun 3 (fun i => if i < 1 then .exn "HTTPError" else .ok ([] : DF)) =
      .ok ([] : DF) :=
  (claim_C3 3 1 [] "x" (by decide)).1.mpr (by decide)

/-- Counterexample to C4 as stated: on a malformed-JSON response the
resolver does NOT let the parse failure propagate — `search_quote`
catches `json.JSONDecodeError` (utils/__init__.py line 181) and returns
`None` as an ordinary value, so the outcome is a returned `None`, not a
raised exception. -/
theorem claim_C4_counterexample :
    (search_quote [] "600519" none 1 false false 0 .malformed).result = retNone ∧
    (search_quote [] "600519" none 1 false false 0 .malformed).networkCalled = true := by
  decide

/-- Claim C4 as amended: a malformed-JSON response is caught inside
`search_quote`, which returns `None` without touching the cache (the
constructed `RuntimeWarning` is never raised); only a response that
parses but lacks the expected keys propagates, as a `KeyError`. -/
theorem claim_C4_amended (cache : Cache) (kw : String) (mt : Option MarketType)
    (cnt : Nat) (sm : Bool) (now : Nat) :
    search_quote cache kw mt cnt false sm now .malformed =
      ⟨retNone, true, cache⟩ ∧
    search_quote cache kw mt cnt false sm now .keyErr =
      ⟨.exn "KeyError", true, cache⟩ := by
  constructor <;> rfl

/-- Counterexample to C5 as stated: in exact-symbol mode a cache-served
result is NOT filtered — with the cache holding the entry that an
earlier free-text resolution of `"MOUTAI"` saved, `search_quote` in
exact-symbol mode returns a quote whose ticker differs from the
keyword, without any network call. -/
theorem claim_C5_counterexample :
    (search_quote cacheMoutai "MOUTAI" none 1 true true 100
      (.items none)).result = retOne quoteMoutai ∧
    (search_quote cacheMoutai "MOUTAI" none 1 true true 100
      (.items none)).networkCalled = false ∧
    quoteMoutai.code ≠ "MOUTAI" := by
  decide

/-- Claim C5 as amended: when the online search actually runs (a network
request is issued), exact-symbol mode guarantees every returned
candidate's ticker equals the keyword — for the single result as well
as for every element of a returned list; cache-served results bypass
this filter. -/
theorem claim_C5_amended (cache : Cache) (kw : String) (mt : Option MarketType)
    (cnt : Nat) (ul : Bool) (now : Nat) (resp : NetResponse)
    (hnet : (search_quote cache kw mt cnt ul true now resp).networkCalled = true) :
    (∀ q, (search_quote cache kw mt cnt ul true now resp).result = retOne q →
      q.code = kw) ∧
    (∀ qs, (search_quote cache kw mt cnt ul true now resp).result = retMany qs →
      ∀ p ∈ qs, p.code = kw) := by
  rcases search_quote_online_or_local cache kw mt cnt ul true now resp with heq | hfalse
  · constructor
    · intro q h
      rw [heq] at h
      exact mem_surviving_code kw mt resp q
        ((searchOnline_result_mem cache kw mt cnt true now resp).1 q h)
    · intro qs h p hp
      rw [heq] at h
      exact mem_surviving_code kw mt resp p
        ((searchOnline_result_mem cache kw mt cnt true now resp).2 qs h p hp)
  · rw [hfalse] at hnet
    cases hnet

/-- Witness for the amended C5: an online exact-symbol search for
`"600519"` returns a quote whose ticker is `"600519"`. -/
theorem claim_C5_amended_witness :
    (quoteOfItem item600519).code = "600519" :=
  (claim_C5_amended [] "600519" none 1 false 0 (.items (some [item600519]))
    (by decide)).1 (quoteOfItem item600519) (by decide)

/-- Claim C6: the per-cell coercion `convert` computes exactly the
specified algorithm — unchanged when the string form has no digit,
integer parse when alphanumeric, float parse otherwise, original value
on parse failure — and, being a total function into `Cell`, it never
raises. -/
theorem claim_C6 (o : Cell) : convert o = convertSpec o := by
  unfold convert convertSpec
  by_cases hd : containsDigit (strOfCell o) = true
  · rw [if_neg (by simp [hd]), if_pos hd]
    by_cases ha : pyIsAlnum (strOfCell o) = true
    · rw [if_pos ha, if_pos ha]
      cases pyInt o <;> simp
    · rw [if_neg ha, if_neg ha]
      cases pyFloat o <;> simp
  · have hd' : containsDigit (strOfCell o) = false := by
      cases h : containsDigit (strOfCell o)
      · rfl
      · exact absurd h hd
    rw [if_pos hd', if_neg (by simp [hd'])]

/-- Claim C7: `to_numeric` leaves every deny-listed column of a
DataFrame, and every deny-listed index of a Series, exactly as it was
— in particular an all-digit ticker string is never coerced. -/
theorem claim_C7 (df : DF) (s : Series) (name : String)
    (h : name ∈ ignoreColumns) :
    dictGet (to_numeric_df df) name = dictGet df name ∧
    dictGet (to_numeric_series s) name = dictGet s name :=
  ⟨dictGet_to_numeric_df df name h, dictGet_to_numeric_series s name h⟩

/-- Witness for C7: the all-digit ticker `"000001"` in the deny-listed
column is preserved verbatim, leading zeros included. -/
theorem claim_C7_witness :
    dictGet (to_numeric_df [("股票代码", [Cell.strV ['0','0','0','0','0','1']])])
      "股票代码" = some [Cell.strV ['0','0','0','0','0','1']] := by
  rw [(claim_C7 [("股票代码", [Cell.strV ['0','0','0','0','0','1']])] []
      "股票代码" (by decide)).1]
  rfl

/-- Claim C8: the numeric coercion is idempotent on DataFrames and on
Series — a second `to_numeric` pass changes nothing. -/
theorem claim_C8 (df : DF) (s : Series) :
    to_numeric_df (to_numeric_df df) = to_numeric_df df ∧
    to_numeric_series (to_numeric_series s) = to_numeric_series s :=
  ⟨to_numeric_df_idem df, to_numeric_series_idem s⟩

/-- Claim C9: a valid local-cache hit mutates nothing — the cache after
`search_quote_locally` is the cache before (the entry with its
`last_time` is intact, because the code copies before deleting), the
stored quote is returned, and an immediate repeat of the lookup returns
the identical result. -/
theorem claim_C9 (cache : Cache) (kw : String) (q : Quote) (T Δ : Nat)
    (mt : Option MarketType)
    (hentry : dictGet cache kw = some (entryOfQuote q T)) (hT : 0 < T)
    (hΔ : Δ ≤ 259200) (hmt : mtMatches mt q = true) :
    (search_quote_locally cache kw mt (T + Δ)).2 = cache ∧
    (search_quote_locally cache kw mt (T + Δ)).1 = .ok (some q) ∧
    search_quote_locally ((search_quote_locally cache kw mt (T + Δ)).2) kw mt
        (T + Δ) = search_quote_locally cache kw mt (T + Δ) := by
  have hloc := search_quote_locally_entry cache kw q T Δ mt hentry hT
  rw [if_pos ⟨hΔ, hmt⟩] at hloc
  refine ⟨by rw [hloc], by rw [hloc], ?_⟩
  rw [hloc]
  exact hloc

/-- Witness for C9 at a concrete cache state. -/
theorem claim_C9_witness :
    (search_quote_locally cacheMoutai "MOUTAI" none (100 + 0)).1 =
      .ok (some quoteMoutai) :=
  (claim_C9 cacheMoutai "MOUTAI" quoteMoutai 100 0 none (by decide) (by decide)
    (by decide) (by decide)).2.1

/-- Claim C10: a resolution that leaves no surviving candidate (nothing
returned, or everything filtered out) never touches the cache; the only
way `search_quote` changes the cache is a resolution with at least one
survivor, which overwrites the keyword's entry with the first survivor
and the fresh timestamp. -/
theorem claim_C10 (cache : Cache) (kw : String) (mt : Option MarketType)
    (cnt : Nat) (ul sm : Bool) (now : Nat) (resp : NetResponse) :
    ((search_quote cache kw mt cnt ul sm now resp).cache = cache ∧
      surviving kw mt sm resp = []) ∨
    (∃ q qs, surviving kw mt sm resp = q :: qs ∧
      (search_quote cache kw mt cnt ul sm now resp).cache =
        dictSet cache kw (entryOfQuote q now)) ∨
    ((search_quote cache kw mt cnt ul sm now resp).networkCalled = false ∧
      (search_quote cache kw mt cnt ul sm now resp).cache = cache) := by
  unfold search_quote
  by_cases hc : (ul && cnt == 1) = true
  · rw [if_pos hc]
    have hsnd := search_quote_locally_snd cache kw mt now
    rcases hl : search_quote_locally cache kw mt now with ⟨res, c'⟩
    rw [hl] at hsnd
    simp only at hsnd
    subst c'
    cases res with
    | exn e => exact Or.inr (Or.inr ⟨rfl, rfl⟩)
    | ok o =>
      cases o with
      | some q0 => exact Or.inr (Or.inr ⟨rfl, rfl⟩)
      | none =>
        rcases searchOnline_cache cache kw mt cnt sm now resp with ⟨h1, h2⟩ | ⟨q, qs, h1, h2⟩
        · exact Or.inl ⟨h1, h2⟩
        · exact Or.inr (Or.inl ⟨q, qs, h1, h2⟩)
  · rw [if_neg hc]
    rcases searchOnline_cache cache kw mt cnt sm now resp with ⟨h1, h2⟩ | ⟨q, qs, h1, h2⟩
    · exact Or.inl ⟨h1, h2⟩
    · exact Or.inr (Or.inl ⟨q, qs, h1, h2⟩)


end Efinance
